import Mathlib

set_option maxRecDepth 16000

/-!
Verification of the CTI viewer decoder (src/cti.rs) against its
natural-language specification.

The decoder is shallowly embedded: a file is a `List Nat` of byte values,
machine integers are `Nat` (with explicit `% 2 ^ w` or bounds where overflow
matters), i32 arithmetic in the colour transform is `Int`, fallible
operations return `Except CTIError _` and Rust slice-indexing panics are
modelled as `Option`/a dedicated error constructor.

The external zstd and lz4 crates are not part of the repository; they are
abstracted as a `Codecs` parameter threaded through the decompression
dispatch, so every theorem below holds for an arbitrary implementation of
those two codecs.
-/

/-- Error kinds of the decoder, mirroring the failure sites of
`CTIDecoder::decode_file` and its helpers (the Rust code surfaces all of
them as `anyhow` errors; the spec classifies them as IOError, FormatError,
UnsupportedColorType, UnsupportedCompression, IntegrityError).
`panicOOB` models an out-of-bounds slice access (a Rust panic) in
`blit_tile`. -/
inductive CTIError where
  | ioError : CTIError
  | badMagic : CTIError
  | unsupportedColorType : Nat → CTIError
  | unsupportedCompression : String → CTIError
  | decompressFailed : String → CTIError
  | crcMismatch : Nat → CTIError
  | panicOOB : CTIError
deriving DecidableEq, Repr

/-- The parsed file header (struct `CTIHeader` in src/cti.rs). -/
structure CTIHeader where
  magic : List Nat
  version : Nat
  flags : Nat
  width : Nat
  height : Nat
  tile_size : Nat
  tiles_x : Nat
  tiles_y : Nat
  color_type : Nat
  compression : Nat
  quality : Nat
deriving DecidableEq, Repr

/-- One tile-index record (struct `TileIndex` in src/cti.rs). -/
structure TileIndex where
  offset : Nat
  compressed_size : Nat
  original_size : Nat
  crc32 : Nat
deriving DecidableEq, Repr

/-- The external decompression engines (zstd and lz4_flex crates).  They are
not part of this repository, so the embedding abstracts them as parameters:
`zstd` takes the compressed bytes and the declared original size, `lz4`
takes only the compressed bytes (its block format carries its own size). -/
structure Codecs where
  zstd : List Nat → Nat → Except String (List Nat)
  lz4 : List Nat → Except String (List Nat)

/-- A concrete `Codecs` instance used for closed evaluations; the inputs
exercised below never reach the zstd/lz4 branches. -/
def noCodecs : Codecs :=
  { zstd := fun _ _ => .error "unavailable", lz4 := fun _ => .error "unavailable" }

/-- Compression identifiers (enum `CompressionId` in src/cti.rs). -/
inductive CompressionId where
  | None : CompressionId
  | Rle : CompressionId
  | Lz77 : CompressionId
  | Delta : CompressionId
  | Predictive : CompressionId
  | Zstd : CompressionId
  | Lz4 : CompressionId
  | Unknown : Nat → CompressionId
deriving DecidableEq, Repr

/-- `impl From<u8> for CompressionId` (src/cti.rs lines 35-48): 0, 1, 2, 3,
4, 10, 11 map to the named modes, everything else keeps the raw byte. -/
def CompressionId.ofNat (v : Nat) : CompressionId :=
  if v = 0 then .None
  else if v = 1 then .Rle
  else if v = 2 then .Lz77
  else if v = 3 then .Delta
  else if v = 4 then .Predictive
  else if v = 10 then .Zstd
  else if v = 11 then .Lz4
  else .Unknown v

/-- `CompressionId::as_str` (src/cti.rs lines 50-61): the bare mode name;
for `Unknown(_)` it is the string "Unknown" without the numeric value. -/
def CompressionId.as_str : CompressionId → String
  | .None => "None"
  | .Rle => "RLE"
  | .Lz77 => "LZ77"
  | .Delta => "Delta"
  | .Predictive => "Predictive"
  | .Zstd => "Zstd"
  | .Lz4 => "LZ4"
  | .Unknown _ => "Unknown"

/-- `CompressionId::describe` (src/cti.rs lines 64-69): like `as_str` but
includes the numeric value for `Unknown(_)`.  Used only by the UI info
popup (src/main.rs line 167), not by the decode error path. -/
def CompressionId.describe : CompressionId → String
  | .Unknown v => "Unknown(" ++ toString v ++ ")"
  | c => c.as_str

/-- `decompress_tile_with_size` (src/cti.rs lines 250-259).  `None` returns
the input unchanged; `Zstd`/`Lz4` call the external codecs; every other
mode fails with an UnsupportedCompression error built from `as_str`. -/
def decompress_tile_with_size (c : Codecs) (kind : Nat) (comp : List Nat)
    (original_size : Nat) : Except CTIError (List Nat) :=
  match CompressionId.ofNat kind with
  | .None => .ok comp
  | .Zstd =>
    match c.zstd comp original_size with
    | .ok d => .ok d
    | .error e => .error (.decompressFailed ("zstd decompress failed: " ++ e))
  | .Lz4 =>
    match c.lz4 comp with
    | .ok d => .ok d
    | .error e => .error (.decompressFailed e)
  | other => .error (.unsupportedCompression ("Unsupported compression in viewer: " ++ other.as_str))

/-- One step of the bit-serial CRC-32 recurrence used by the `const fn
crc32_table` in src/cti.rs (lines 298-312):
`c = if c & 1 != 0 { 0xEDB88320 ^ (c >> 1) } else { c >> 1 }`
(`c >> 1` on u32 is division by 2). -/
def crcBitStep (c : Nat) : Nat :=
  if c &&& 1 ≠ 0 then 0xEDB88320 ^^^ (c / 2) else c / 2

/-- `n` iterations of `crcBitStep`. -/
def crcBitSteps : Nat → Nat → Nat
  | 0, c => c
  | n + 1, c => crcBitSteps n (crcBitStep c)

/-- Entry `i` of the 256-entry lookup table built by `crc32_table` in
src/cti.rs: eight `crcBitStep` iterations starting from `i`.  (The Rust
code tabulates these 256 values in a `[u32; 256]` array; the table is only
ever indexed with `(crc ^ b) & 0xFF < 256`.) -/
def crc32_table (i : Nat) : Nat := crcBitSteps 8 i

/-- The per-byte update of `fn crc32` (src/cti.rs lines 289-297):
`crc = (crc >> 8) ^ TABLE[((crc ^ b) & 0xFF) as usize]`. -/
def crcUpdate (crc b : Nat) : Nat :=
  (crc / 256) ^^^ crc32_table ((crc ^^^ b) &&& 255)

/-- `fn crc32` (src/cti.rs lines 289-297): table-driven CRC-32 with initial
register 0xFFFFFFFF and final complement (`!crc` on a u32 below `2^32`
equals xor with 0xFFFFFFFF; the register provably stays below `2^32`). -/
def crc32 (data : List Nat) : Nat :=
  (data.foldl crcUpdate 0xFFFFFFFF) ^^^ 0xFFFFFFFF

/-- Modelled from the spec (section 4.4): one step of the standard
bit-serial reflected CRC-32 with polynomial 0xEDB88320. -/
def crcSpecStep (c : Nat) : Nat :=
  if c % 2 = 1 then (c / 2) ^^^ 0xEDB88320 else c / 2

/-- Modelled from the spec: `n` iterations of `crcSpecStep`. -/
def crcSpecSteps : Nat → Nat → Nat
  | 0, c => c
  | n + 1, c => crcSpecSteps n (crcSpecStep c)

/-- Modelled from the spec (section 4.4): the standard reflected CRC-32 of
a byte sequence — initial register 0xFFFFFFFF, per byte xor the byte into
the register and run eight bit steps, final bitwise complement. -/
def crc32_spec (data : List Nat) : Nat :=
  (data.foldl (fun crc b => crcSpecSteps 8 (crc ^^^ b)) 0xFFFFFFFF) ^^^ 0xFFFFFFFF

/-- Two-complement reinterpretation of a byte as i8 (`p[1] as i8` on a u8
value), as an integer: values 128..255 become negative. -/
def asI8 (b : Nat) : Int :=
  if b % 256 < 128 then ((b % 256 : Nat) : Int) else ((b % 256 : Nat) : Int) - 256

/-- Two-complement reinterpretation of a 16-bit value as i16. -/
def asI16 (v : Nat) : Int :=
  if v % 65536 < 32768 then ((v % 65536 : Nat) : Int) else ((v % 65536 : Nat) : Int) - 65536

/-- `u16::from_le_bytes` on two byte values. -/
def u16le (b0 b1 : Nat) : Nat := b0 % 256 + 256 * (b1 % 256)

/-- `x.clamp(0, 255) as u8` on an i32 value. -/
def clampToByte (x : Int) : Nat := (max 0 (min x 255)).toNat

/-- `x.clamp(0, 65535) as u16` on an i32 value. -/
def clampToWord (x : Int) : Nat := (max 0 (min x 65535)).toNat

/-- `fn rct_inverse_rgb8` (src/cti.rs lines 261-273): per 3-byte chunk
(Y, Cb, Cr) with Cb, Cr read as i8, compute `g = y - ((cb + cr) >> 2)`
(i32 arithmetic shift right by 2 = floor division by 4), `r = cr + g`,
`b = cb + g`, clamp each into [0, 255] and store as (R, G, B).
`chunks_exact_mut(3)` leaves a trailing chunk of fewer than 3 bytes
untouched. -/
def rct_inverse_rgb8 : List Nat → List Nat
  | p0 :: p1 :: p2 :: rest =>
    let y : Int := ((p0 % 256 : Nat) : Int)
    let cb : Int := asI8 p1
    let cr : Int := asI8 p2
    let g : Int := y - (cb + cr).fdiv 4
    let r : Int := cr + g
    let b : Int := cb + g
    clampToByte r :: clampToByte g :: clampToByte b :: rct_inverse_rgb8 rest
  | l => l

/-- `fn rct_inverse_rgb16` (src/cti.rs lines 274-286): per 6-byte chunk,
channels are little-endian u16, Cb and Cr reinterpreted as i16; same
formula, clamped into [0, 65535] and written back little-endian in
(R, G, B) order. -/
def rct_inverse_rgb16 : List Nat → List Nat
  | b0 :: b1 :: b2 :: b3 :: b4 :: b5 :: rest =>
    let y : Int := (u16le b0 b1 : Nat)
    let cb : Int := asI16 (u16le b2 b3)
    let cr : Int := asI16 (u16le b4 b5)
    let g : Int := y - (cb + cr).fdiv 4
    let r : Int := cr + g
    let b : Int := cb + g
    clampToWord r % 256 :: clampToWord r / 256 ::
      clampToWord g % 256 :: clampToWord g / 256 ::
      clampToWord b % 256 :: clampToWord b / 256 :: rct_inverse_rgb16 rest
  | l => l

/-- Modelled from the spec (section 4.5): reinterpretation of a channel
value as a signed quantity of the channel bit width. -/
def toSigned (bits v : Nat) : Int :=
  if v < 2 ^ (bits - 1) then (v : Int) else (v : Int) - 2 ^ bits

/-- Modelled from the spec (section 4.5): clamp into [lo, hi]. -/
def clampInt (lo hi x : Int) : Int := max lo (min x hi)

/-- Modelled from the spec (section 4.5): the inverse colour transform of
one pixel with channel width `bits` — Y unsigned, Cb/Cr signed of the
channel width, `g = Y - ((Cb + Cr) >> 2)` with arithmetic
(sign-preserving) shift, `r = Cr + g`, `b = Cb + g`, each clamped into
the channel range and returned in (R, G, B) order. -/
def rctSpecPixel (bits y cb cr : Nat) : Nat × Nat × Nat :=
  let g : Int := (y : Int) - (toSigned bits cb + toSigned bits cr).fdiv 4
  let r : Int := toSigned bits cr + g
  let b : Int := toSigned bits cb + g
  ((clampInt 0 (2 ^ bits - 1) r).toNat,
   (clampInt 0 (2 ^ bits - 1) g).toNat,
   (clampInt 0 (2 ^ bits - 1) b).toNat)

/-- The contiguous byte range `[off, off + n)` of a file. -/
def byteSlice (f : List Nat) (off n : Nat) : List Nat := (f.drop off).take n

/-- Little-endian value of a byte slice (`uXX::from_le_bytes`). -/
def leVal (bs : List Nat) : Nat := bs.foldr (fun b acc => b + 256 * acc) 0

/-- `fn read_header` (src/cti.rs lines 152-181): the fixed little-endian
64-byte layout — magic 4, version 2, flags 2, width 4, height 4,
tile_size 4, tiles_x 4, tiles_y 4, color_type 1, compression 1,
quality 1, reserved 33 (read and discarded).  The sequence of
`read_exact` calls succeeds exactly when at least 64 bytes are present;
no validation of magic or colour type happens here. -/
def headerOf (f : List Nat) : CTIHeader :=
  { magic := byteSlice f 0 4
    version := leVal (byteSlice f 4 2)
    flags := leVal (byteSlice f 6 2)
    width := leVal (byteSlice f 8 4)
    height := leVal (byteSlice f 12 4)
    tile_size := leVal (byteSlice f 16 4)
    tiles_x := leVal (byteSlice f 20 4)
    tiles_y := leVal (byteSlice f 24 4)
    color_type := f.getD 28 0
    compression := f.getD 29 0
    quality := f.getD 30 0 }

def parseHeader (f : List Nat) : Except CTIError CTIHeader :=
  if 64 ≤ f.length then .ok (headerOf f) else .error .ioError

/-- `CTIDecoder::info` (src/cti.rs lines 76-79): the metadata probe —
open the file and run `read_header` only. -/
def infoFile (f : List Nat) : Except CTIError CTIHeader := parseHeader f

/-- One 20-byte index record starting at byte `base`
(`fn read_indices`, src/cti.rs lines 183-198): u64 offset,
u32 compressed_size, u32 original_size, u32 crc32, all little-endian. -/
def parseIndex (f : List Nat) (base : Nat) : TileIndex :=
  { offset := leVal (byteSlice f base 8)
    compressed_size := leVal (byteSlice f (base + 8) 4)
    original_size := leVal (byteSlice f (base + 12) 4)
    crc32 := leVal (byteSlice f (base + 16) 4) }

/-- `fn read_indices` for `n` records immediately after the 64-byte
header: the sequential reads succeed exactly when `64 + 20 * n` bytes are
present. -/
def parseIndices (f : List Nat) (n : Nat) : Except CTIError (List TileIndex) :=
  if 64 + 20 * n ≤ f.length then
    .ok ((List.range n).map fun i => parseIndex f (64 + 20 * i))
  else .error .ioError

/-- `file.seek(SeekFrom::Start(off))` followed by `read_exact` of `n`
bytes: fails past end-of-file, except that reading 0 bytes always
succeeds. -/
def readAt (f : List Nat) (off n : Nat) : Except CTIError (List Nat) :=
  if off + n ≤ f.length then .ok (byteSlice f off n)
  else if n = 0 then .ok []
  else .error .ioError

/-- Bytes-per-pixel from the colour type (src/cti.rs lines 94-101). -/
def bppOf (ct : Nat) : Except CTIError Nat :=
  if ct = 1 then .ok 1
  else if ct = 2 then .ok 2
  else if ct = 3 then .ok 3
  else if ct = 4 then .ok 4
  else if ct = 5 then .ok 6
  else .error (.unsupportedColorType ct)

/-- `let use_rct = (hdr.flags & 1) != 0 && matches!(hdr.color_type, 3 | 5)`
(src/cti.rs line 104). -/
def useRct (hdr : CTIHeader) : Bool :=
  (hdr.flags &&& 1 != 0) && (hdr.color_type == 3 || hdr.color_type == 5)

/-- The conditional transform dispatch in the decode loop
(src/cti.rs lines 116-122). -/
def applyRct (ct : Nat) (tile : List Nat) : List Nat :=
  if ct = 3 then rct_inverse_rgb8 tile
  else if ct = 5 then rct_inverse_rgb16 tile
  else tile

/-- Wrapping u32 addition: release-build Rust `+` on u32 operands wraps
modulo `2^32` (debug builds panic on the overflow instead). -/
def add32 (a b : Nat) : Nat := (a + b) % 4294967296

/-- Wrapping u32 subtraction (`a - b` on u32 values in release builds;
debug builds panic on underflow). -/
def sub32 (a b : Nat) : Nat :=
  (a % 4294967296 + 4294967296 - b % 4294967296) % 4294967296

/-- Wrapping u32 multiplication (`a * b` on u32 values in release builds;
debug builds panic on the overflow). -/
def mul32 (a b : Nat) : Nat := (a * b) % 4294967296

/-- The effective tile extent on one axis as computed in `fn blit_tile`
(src/cti.rs lines 233-238): `end = (start + ts).min(dim)`,
extent `= end - start`, both in u32 arithmetic, so the sum can wrap and
the subtraction wraps when the clipped end lies below `start`. -/
def effDim32 (start ts dim : Nat) : Nat := sub32 (min (add32 start ts) dim) start

/-- Reference (idealized, non-wrapping) effective extent: the same
computation in unbounded arithmetic with truncated subtraction.
`effDim32_exact` below shows the source computation agrees with it
whenever `start + ts < 2^32` and `start ≤ dim`. -/
def effDim (start ts dim : Nat) : Nat := min (start + ts) dim - start

/-- Destination byte offset of copy row `r` (src/cti.rs line 241):
`((start_y + row) * w + start_x) * bpp` in u32 arithmetic, each operation
wrapping modulo `2^32` (the final `as usize` preserves the wrapped
value). -/
def rowDstOff32 (w bpp sx sy r : Nat) : Nat :=
  mul32 (add32 (mul32 (add32 sy r) w) sx) bpp

/-- Reference (idealized, non-wrapping) destination row offset;
`blit_tile_eq_exact` below shows the wrapped computation agrees with it in
the no-overflow regime. -/
def rowDstOff (w bpp sx sy r : Nat) : Nat := ((sy + r) * w + sx) * bpp

/-- One row copy of `fn blit_tile` (src/cti.rs line 244):
`out[dst_off..dst_off + len].copy_from_slice(&tile[src_off..src_off + len])`.
`none` models the panic when either slice range exceeds its buffer (the
`dst_off + len` range bounds are computed in usize, which cannot overflow
for u32 offsets and lengths). -/
def copyRow (out tile : List Nat) (dstOff srcOff len : Nat) : Option (List Nat) :=
  if srcOff + len ≤ tile.length ∧ dstOff + len ≤ out.length then
    some (out.take dstOff ++ (tile.drop srcOff).take len ++ out.drop (dstOff + len))
  else none

/-- The row loop of `fn blit_tile` (src/cti.rs lines 240-245): rows
`row, row + 1, …` while `n` rows remain; the source offset of row `r` is
`r * tile_w * bpp` and the copied length is `tile_w * bpp`, both products
in wrapping u32 arithmetic. -/
def blitRows (tile : List Nat) (w bpp sx sy tw : Nat) : Nat → Nat → List Nat → Option (List Nat)
  | _, 0, out => some out
  | row, n + 1, out =>
    match copyRow out tile (rowDstOff32 w bpp sx sy row) (mul32 (mul32 row tw) bpp)
        (mul32 tw bpp) with
    | some out2 => blitRows tile w bpp sx sy tw (row + 1) n out2
    | none => none

/-- Reference (idealized, non-wrapping) row loop: identical to `blitRows`
but with all offset arithmetic exact.  `blitRows_eq_exact` below shows the
two loops agree row by row in the no-overflow regime. -/
def blitRowsE (tile : List Nat) (w bpp sx sy tw : Nat) : Nat → Nat → List Nat → Option (List Nat)
  | _, 0, out => some out
  | row, n + 1, out =>
    match copyRow out tile (rowDstOff w bpp sx sy row) (row * tw * bpp) (tw * bpp) with
    | some out2 => blitRowsE tile w bpp sx sy tw (row + 1) n out2
    | none => none

/-- `fn blit_tile` (src/cti.rs lines 223-247): destination origin
`(tx * ts, ty * ts)`, effective extent `effDim32` on each axis (all in
wrapping u32 arithmetic), then the row loop from row 0. -/
def blit_tile (out tile : List Nat) (w h ts bpp tx ty : Nat) : Option (List Nat) :=
  blitRows tile w bpp (mul32 tx ts) (mul32 ty ts) (effDim32 (mul32 tx ts) ts w)
    0 (effDim32 (mul32 ty ts) ts h) out

/-- Reading and decompressing one tile payload in the decode loop
(src/cti.rs lines 109-113): seek to the record offset, read exactly
`compressed_size` bytes, dispatch decompression. -/
def tileBytes (c : Codecs) (f : List Nat) (compression : Nat) (t : TileIndex) :
    Except CTIError (List Nat) :=
  match readAt f t.offset t.compressed_size with
  | .error e => .error e
  | .ok comp => decompress_tile_with_size c compression comp t.original_size

/-- The body of the decode loop for tile `i` (src/cti.rs lines 108-136):
read + decompress, verify the CRC-32 against the stored checksum
(`ensure!(crc32(&tile) == t.crc32, "CRC mismatch at tile {i}")`),
conditionally invert the colour transform, then blit at grid position
`(i % tiles_x, i / tiles_x)`. -/
def processTile (c : Codecs) (f : List Nat) (hdr : CTIHeader) (bpp i : Nat)
    (t : TileIndex) (out : List Nat) : Except CTIError (List Nat) :=
  match tileBytes c f hdr.compression t with
  | .error e => .error e
  | .ok tile0 =>
    if crc32 tile0 = t.crc32 then
      let tile := if useRct hdr then applyRct hdr.color_type tile0 else tile0
      match blit_tile out tile hdr.width hdr.height hdr.tile_size bpp
          (i % hdr.tiles_x) (i / hdr.tiles_x) with
      | some out2 => .ok out2
      | none => .error .panicOOB
    else .error (.crcMismatch i)

/-- The decode loop over the index records in order, starting at tile
index `i`; the first failure aborts the whole run. -/
def processTiles (c : Codecs) (f : List Nat) (hdr : CTIHeader) (bpp : Nat) :
    Nat → List TileIndex → List Nat → Except CTIError (List Nat)
  | _, [], out => .ok out
  | i, t :: rest, out =>
    match processTile c f hdr bpp i t out with
    | .error e => .error e
    | .ok out2 => processTiles c f hdr bpp (i + 1) rest out2

/-- `CTIDecoder::decode_file` (src/cti.rs lines 82-139): parse the header,
check the magic (`ensure!(&hdr.magic == b"CTI1", "Bad magic")`), read the
`(tiles_x * tiles_y) as usize` index records (the product is wrapping u32
multiplication in release builds), resolve bytes-per-pixel, allocate the
zeroed output raster of `(width * height * bpp) as usize` bytes (again a
wrapping u32 product), then run the tile loop. -/
def decodeFile (c : Codecs) (f : List Nat) : Except CTIError (CTIHeader × List Nat) :=
  match parseHeader f with
  | .error e => .error e
  | .ok hdr =>
    if hdr.magic = [67, 84, 73, 49] then
      match parseIndices f (mul32 hdr.tiles_x hdr.tiles_y) with
      | .error e => .error e
      | .ok indices =>
        match bppOf hdr.color_type with
        | .error e => .error e
        | .ok bpp =>
          match processTiles c f hdr bpp 0 indices
              (List.replicate (mul32 (mul32 hdr.width hdr.height) bpp) 0) with
          | .error e => .error e
          | .ok out => .ok (hdr, out)
    else .error .badMagic

/-! ### Concrete inputs used by closed evaluations below -/

/-- Header of a 1×1 L8 image with one 1×1 tile and compression None. -/
def c1hdr : CTIHeader :=
  { magic := [67, 84, 73, 49], version := 1, flags := 0, width := 1, height := 1,
    tile_size := 1, tiles_x := 1, tiles_y := 1, color_type := 1, compression := 0,
    quality := 0 }

/-- Index record for one byte at offset 0 whose stored checksum 0 disagrees
with the actual CRC-32 of the byte 5. -/
def c1tile : TileIndex :=
  { offset := 0, compressed_size := 1, original_size := 1, crc32 := 0 }

/-- A complete file: valid magic, a 1×1 L8 image, one 1×1 tile whose index
record declares a 0-byte payload at offset 84 with stored checksum 0 (the
CRC-32 of the empty byte sequence).  All checks pass, yet the decompressed
tile is 1 byte shorter than the region the compositor copies. -/
def c9file : List Nat :=
  [67, 84, 73, 49] ++ [1, 0] ++ [0, 0] ++
  [1, 0, 0, 0] ++ [1, 0, 0, 0] ++ [1, 0, 0, 0] ++ [1, 0, 0, 0] ++ [1, 0, 0, 0] ++
  [1, 0, 0] ++ List.replicate 33 0 ++
  [84, 0, 0, 0, 0, 0, 0, 0] ++ [0, 0, 0, 0] ++ [0, 0, 0, 0] ++ [0, 0, 0, 0]

/-- A 64-byte file: a complete header (valid magic, 0×0 image, zero tile
counts, L8, compression None) truncated immediately after the 33 reserved
bytes. -/
def c8file : List Nat :=
  [67, 84, 73, 49] ++ List.replicate 24 0 ++ [1, 0, 0] ++ List.replicate 33 0

/-- A 64-byte file: a complete header (valid magic, 1×1 image, a 1×1 tile
grid, L8, compression None) truncated immediately after the 33 reserved
bytes, so the single 20-byte index record is missing. -/
def c8fileB : List Nat :=
  [67, 84, 73, 49] ++ [1, 0] ++ [0, 0] ++
  [1, 0, 0, 0] ++ [1, 0, 0, 0] ++ [1, 0, 0, 0] ++ [1, 0, 0, 0] ++ [1, 0, 0, 0] ++
  [1, 0, 0] ++ List.replicate 33 0

/-- A 64-byte file: a complete header (valid magic, 0×0 image, L8,
compression None) with tiles_x = tiles_y = 65536, truncated immediately
after the reserved bytes.  The u32 product 65536 * 65536 wraps to 0, so
decode reads zero index records. -/
def c8fileC : List Nat :=
  [67, 84, 73, 49] ++ List.replicate 16 0 ++ [0, 0, 1, 0] ++ [0, 0, 1, 0] ++
  [1, 0, 0] ++ List.replicate 33 0

/-! ### CRC-32: the table-driven implementation computes the standard
reflected CRC-32 -/

theorem crcBitStep_eq_spec (c : Nat) : crcBitStep c = crcSpecStep c := by
  unfold crcBitStep crcSpecStep
  rw [Nat.and_one_is_mod]
  rcases Nat.mod_two_eq_zero_or_one c with h | h <;> simp [h, Nat.xor_comm]

theorem crcBitSteps_eq_spec (n : Nat) : ∀ c, crcBitSteps n c = crcSpecSteps n c := by
  induction n with
  | zero => intro c; rfl
  | succ n ih => intro c; simp only [crcBitSteps, crcSpecSteps, crcBitStep_eq_spec, ih]

theorem crcSpecStep_xor (a b : Nat) :
    crcSpecStep (a ^^^ b) = crcSpecStep a ^^^ crcSpecStep b := by
  unfold crcSpecStep
  rcases Nat.mod_two_eq_zero_or_one a with ha | ha <;>
    rcases Nat.mod_two_eq_zero_or_one b with hb | hb
  · have hx : ¬(a ^^^ b) % 2 = 1 := by rw [Nat.xor_mod_two_eq_one]; omega
    rw [if_neg hx, if_neg (by omega), if_neg (by omega), Nat.xor_div_two]
  · have hx : (a ^^^ b) % 2 = 1 := by rw [Nat.xor_mod_two_eq_one]; omega
    rw [if_pos hx, if_neg (by omega), if_pos hb, Nat.xor_div_two]
    exact Nat.xor_assoc _ _ _
  · have hx : (a ^^^ b) % 2 = 1 := by rw [Nat.xor_mod_two_eq_one]; omega
    rw [if_pos hx, if_pos ha, if_neg (by omega), Nat.xor_div_two, Nat.xor_assoc,
      Nat.xor_comm (b / 2) 0xEDB88320, ← Nat.xor_assoc]
  · have hx : ¬(a ^^^ b) % 2 = 1 := by rw [Nat.xor_mod_two_eq_one]; omega
    rw [if_neg hx, if_pos ha, if_pos hb, Nat.xor_div_two, Nat.xor_assoc,
      Nat.xor_comm (b / 2) 0xEDB88320, ← Nat.xor_assoc 0xEDB88320, Nat.xor_self,
      Nat.zero_xor]

theorem crcSpecSteps_xor (n : Nat) : ∀ a b,
    crcSpecSteps n (a ^^^ b) = crcSpecSteps n a ^^^ crcSpecSteps n b := by
  induction n with
  | zero => intro a b; rfl
  | succ n ih => intro a b; simp only [crcSpecSteps, crcSpecStep_xor, ih]

theorem crcSpecSteps_two_pow_mul (n : Nat) : ∀ b, crcSpecSteps n (2 ^ n * b) = b := by
  induction n with
  | zero => intro b; simp [crcSpecSteps]
  | succ n ih =>
    intro b
    have h2 : 2 ^ (n + 1) * b = 2 * (2 ^ n * b) := by ring
    simp only [crcSpecSteps]
    rw [h2]
    have hstep : crcSpecStep (2 * (2 ^ n * b)) = 2 ^ n * b := by
      unfold crcSpecStep
      rw [if_neg (by omega)]
      omega
    rw [hstep]
    exact ih b

theorem xor_disjoint_eq_add {n a : Nat} (b : Nat) (ha : a < 2 ^ n) :
    a ^^^ 2 ^ n * b = a + 2 ^ n * b := by
  have hor : 2 ^ n * b + a = 2 ^ n * b ||| a := Nat.mul_add_lt_is_or ha b
  rw [Nat.add_comm, hor]
  apply Nat.eq_of_testBit_eq
  intro i
  rw [Nat.testBit_xor, Nat.testBit_or]
  rcases Nat.lt_or_ge i n with hi | hi
  · have hhigh : (2 ^ n * b).testBit i = false := by
      rw [Nat.testBit_mul_pow_two]
      simp [Nat.not_le.mpr hi]
    rw [hhigh]
    simp
  · have halow : a.testBit i = false :=
      Nat.testBit_lt_two_pow (lt_of_lt_of_le ha (Nat.pow_le_pow_right (by norm_num) hi))
    rw [halow]
    simp

theorem crcSpecSteps_byte (x : Nat) :
    crcSpecSteps 8 x = (x / 256) ^^^ crcSpecSteps 8 (x % 256) := by
  have h256 : (2 : Nat) ^ 8 = 256 := by norm_num
  have hlt : x % 256 < 2 ^ 8 := by omega
  have hx : x = (x % 256) ^^^ 2 ^ 8 * (x / 256) := by
    rw [xor_disjoint_eq_add _ hlt]
    omega
  conv_lhs => rw [hx]
  rw [crcSpecSteps_xor, crcSpecSteps_two_pow_mul]
  exact Nat.xor_comm _ _

theorem xor_byte_div256 (crc b : Nat) (hb : b < 256) :
    (crc ^^^ b) / 256 = crc / 256 := by
  have h : (crc ^^^ b) >>> 8 = crc >>> 8 := by
    apply Nat.eq_of_testBit_eq
    intro i
    rw [Nat.testBit_shiftRight, Nat.testBit_shiftRight, Nat.testBit_xor]
    have hb8 : b.testBit (8 + i) = false := by
      apply Nat.testBit_lt_two_pow
      calc b < 256 := hb
        _ = 2 ^ 8 := by norm_num
        _ ≤ 2 ^ (8 + i) := Nat.pow_le_pow_right (by norm_num) (by omega)
    rw [hb8]
    simp
  simpa [Nat.shiftRight_eq_div_pow] using h

theorem land255_eq_mod (x : Nat) : x &&& 255 = x % 256 := by
  have h := Nat.and_pow_two_sub_one_eq_mod x 8
  norm_num at h
  exact h

theorem crcUpdate_eq (crc b : Nat) (hb : b < 256) :
    crcUpdate crc b = crcSpecSteps 8 (crc ^^^ b) := by
  unfold crcUpdate crc32_table
  rw [crcBitSteps_eq_spec, crcSpecSteps_byte (crc ^^^ b), land255_eq_mod,
    xor_byte_div256 crc b hb]

theorem crc32_foldl_eq (data : List Nat) : ∀ crc, (∀ b ∈ data, b < 256) →
    data.foldl crcUpdate crc = data.foldl (fun c b => crcSpecSteps 8 (c ^^^ b)) crc := by
  induction data with
  | nil => intro crc _; rfl
  | cons b rest ih =>
    intro crc h
    simp only [List.foldl_cons]
    rw [crcUpdate_eq crc b (h b (by simp))]
    exact ih _ (fun x hx => h x (by simp [hx]))

/-- C1: for every tile the integrity check computes the standard CRC-32
(reflected, polynomial 0xEDB88320, initial register 0xFFFFFFFF, final
complement, via the 256-entry table) over the full decompressed tile byte
sequence, and decode fails with the integrity error (aborting the whole
decode with no partial output) whenever the computed value differs from
the tile's stored checksum: (1) on byte sequences the table-driven `crc32`
agrees with the standard bit-serial reflected CRC-32 `crc32_spec`;
(2) the decode-loop body fails with `crcMismatch i` as soon as the CRC of
the decompressed tile differs from the stored checksum; (3) that error
aborts the remaining tile loop, so no raster is returned. -/
theorem cti_c1 :
    (∀ data : List Nat, (∀ b ∈ data, b < 256) → crc32 data = crc32_spec data) ∧
    (∀ (c : Codecs) (f : List Nat) (hdr : CTIHeader) (bpp i : Nat) (t : TileIndex)
        (tile0 out : List Nat), tileBytes c f hdr.compression t = .ok tile0 →
        crc32 tile0 ≠ t.crc32 →
        processTile c f hdr bpp i t out = .error (.crcMismatch i)) ∧
    (∀ (c : Codecs) (f : List Nat) (hdr : CTIHeader) (bpp i : Nat) (t : TileIndex)
        (rest : List TileIndex) (out : List Nat) (e : CTIError),
        processTile c f hdr bpp i t out = .error e →
        processTiles c f hdr bpp i (t :: rest) out = .error e) := by
  refine ⟨?_, ?_, ?_⟩
  · intro data h
    unfold crc32 crc32_spec
    rw [crc32_foldl_eq data _ h]
  · intro c f hdr bpp i t tile0 out htile hcrc
    simp only [processTile, htile]
    rw [if_neg hcrc]
  · intro c f hdr bpp i t rest out e h
    simp only [processTiles, h]

theorem cti_c1_witness :
    crc32 [49, 50, 51] = crc32_spec [49, 50, 51] ∧
    processTile noCodecs [5] c1hdr 1 0 c1tile [0] = .error (.crcMismatch 0) ∧
    processTiles noCodecs [5] c1hdr 1 0 [c1tile] [0] = .error (.crcMismatch 0) :=
  ⟨cti_c1.1 [49, 50, 51] (by decide),
   cti_c1.2.1 noCodecs [5] c1hdr 1 0 c1tile [5] [0] (by rfl) (by decide),
   cti_c1.2.2 noCodecs [5] c1hdr 1 0 c1tile [] [0] (.crcMismatch 0)
     (cti_c1.2.1 noCodecs [5] c1hdr 1 0 c1tile [5] [0] (by rfl) (by decide))⟩

/-! ### Compositor: row-copy and frame lemmas -/

theorem copyRow_inv {out tile : List Nat} {d s len : Nat} {res : List Nat}
    (h : copyRow out tile d s len = some res) :
    s + len ≤ tile.length ∧ d + len ≤ out.length ∧
      res = out.take d ++ (tile.drop s).take len ++ out.drop (d + len) := by
  unfold copyRow at h
  split at h
  · rename_i hc
    injection h with h
    exact ⟨hc.1, hc.2, h.symm⟩
  · exact absurd h (by simp)

theorem copyRow_length {out tile : List Nat} {d s len : Nat} {res : List Nat}
    (h : copyRow out tile d s len = some res) : res.length = out.length := by
  obtain ⟨h1, h2, rfl⟩ := copyRow_inv h
  simp only [List.length_append, List.length_take, List.length_drop]
  omega

theorem copyRow_getElem_lt {out tile : List Nat} {d s len : Nat} {res : List Nat}
    (h : copyRow out tile d s len = some res) {j : Nat} (hj : j < d) :
    res[j]? = out[j]? := by
  obtain ⟨h1, h2, rfl⟩ := copyRow_inv h
  have hA : (out.take d).length = d := by rw [List.length_take]; omega
  rw [List.getElem?_append_left (by rw [List.length_append, hA]; omega),
    List.getElem?_append_left (by rw [hA]; omega),
    List.getElem?_take, if_pos hj]

theorem copyRow_getElem_ge {out tile : List Nat} {d s len : Nat} {res : List Nat}
    (h : copyRow out tile d s len = some res) {j : Nat} (hj : d + len ≤ j) :
    res[j]? = out[j]? := by
  obtain ⟨h1, h2, rfl⟩ := copyRow_inv h
  have hA : (out.take d).length = d := by rw [List.length_take]; omega
  have hB : ((tile.drop s).take len).length = len := by
    rw [List.length_take, List.length_drop]; omega
  have hAB : (out.take d ++ (tile.drop s).take len).length = d + len := by
    rw [List.length_append, hA, hB]
  rw [List.getElem?_append_right (by rw [hAB]; omega), hAB, List.getElem?_drop]
  have hidx : d + len + (j - (d + len)) = j := by omega
  rw [hidx]

theorem copyRow_getElem_mid {out tile : List Nat} {d s len : Nat} {res : List Nat}
    (h : copyRow out tile d s len = some res) {j : Nat} (hj1 : d ≤ j)
    (hj2 : j < d + len) : res[j]? = tile[s + (j - d)]? := by
  obtain ⟨h1, h2, rfl⟩ := copyRow_inv h
  have hA : (out.take d).length = d := by rw [List.length_take]; omega
  have hB : ((tile.drop s).take len).length = len := by
    rw [List.length_take, List.length_drop]; omega
  have hAB : (out.take d ++ (tile.drop s).take len).length = d + len := by
    rw [List.length_append, hA, hB]
  rw [List.getElem?_append_left (by rw [hAB]; omega),
    List.getElem?_append_right (by rw [hA]; omega), hA,
    List.getElem?_take, if_pos (by omega), List.getElem?_drop]

theorem blitRowsE_length (tile : List Nat) (w bpp sx sy tw : Nat) :
    ∀ (n row : Nat) (out res : List Nat),
      blitRowsE tile w bpp sx sy tw row n out = some res → res.length = out.length := by
  intro n
  induction n with
  | zero =>
    intro row out res h
    simp only [blitRowsE, Option.some.injEq] at h
    subst h
    rfl
  | succ n ih =>
    intro row out res h
    simp only [blitRowsE] at h
    cases hc : copyRow out tile (rowDstOff w bpp sx sy row) (row * tw * bpp) (tw * bpp) with
    | none => rw [hc] at h; exact absurd h (by simp)
    | some out2 =>
      rw [hc] at h
      exact (ih (row + 1) out2 res h).trans (copyRow_length hc)

theorem blitRowsE_preserved (tile : List Nat) (w bpp sx sy tw : Nat) :
    ∀ (n row : Nat) (out res : List Nat),
      blitRowsE tile w bpp sx sy tw row n out = some res →
      ∀ j : Nat, (∀ r, row ≤ r → r < row + n →
          ¬(rowDstOff w bpp sx sy r ≤ j ∧ j < rowDstOff w bpp sx sy r + tw * bpp)) →
      res[j]? = out[j]? := by
  intro n
  induction n with
  | zero =>
    intro row out res h j _
    simp only [blitRowsE, Option.some.injEq] at h
    subst h
    rfl
  | succ n ih =>
    intro row out res h j hout
    simp only [blitRowsE] at h
    cases hc : copyRow out tile (rowDstOff w bpp sx sy row) (row * tw * bpp) (tw * bpp) with
    | none => rw [hc] at h; exact absurd h (by simp)
    | some out2 =>
      rw [hc] at h
      have h2 : res[j]? = out2[j]? :=
        ih (row + 1) out2 res h j (fun r hr1 hr2 => hout r (by omega) (by omega))
      have hrow := hout row (Nat.le_refl row) (by omega)
      rcases Nat.lt_or_ge j (rowDstOff w bpp sx sy row) with hj | hj
      · rw [h2, copyRow_getElem_lt hc hj]
      · rw [h2, copyRow_getElem_ge hc (by omega)]

theorem blitRowsE_written (tile : List Nat) (w bpp sx sy tw : Nat) (htw : tw ≤ w) :
    ∀ (n row : Nat) (out res : List Nat),
      blitRowsE tile w bpp sx sy tw row n out = some res →
      ∀ r k : Nat, row ≤ r → r < row + n → k < tw * bpp →
      res[rowDstOff w bpp sx sy r + k]? = tile[r * tw * bpp + k]? := by
  intro n
  induction n with
  | zero =>
    intro row out res h r k hr1 hr2 _
    exact absurd hr2 (by omega)
  | succ n ih =>
    intro row out res h r k hr1 hr2 hk
    simp only [blitRowsE] at h
    cases hc : copyRow out tile (rowDstOff w bpp sx sy row) (row * tw * bpp) (tw * bpp) with
    | none => rw [hc] at h; exact absurd h (by simp)
    | some out2 =>
      rw [hc] at h
      rcases Nat.eq_or_lt_of_le hr1 with heq | hlt
      · subst heq
        have hmid := copyRow_getElem_mid hc
          (j := rowDstOff w bpp sx sy row + k) (by omega) (by omega)
        have hidx : row * tw * bpp + (rowDstOff w bpp sx sy row + k -
            rowDstOff w bpp sx sy row) = row * tw * bpp + k := by omega
        rw [hidx] at hmid
        have hpres : res[rowDstOff w bpp sx sy row + k]? =
            out2[rowDstOff w bpp sx sy row + k]? := by
          apply blitRowsE_preserved tile w bpp sx sy tw n (row + 1) out2 res h
          intro r2 hr21 hr22 hcon
          have hDle : rowDstOff w bpp sx sy row + w * bpp ≤ rowDstOff w bpp sx sy r2 := by
            unfold rowDstOff
            have hinner : (sy + row) * w + sx + w = (sy + row + 1) * w + sx := by ring
            have hmul : (sy + row + 1) * w ≤ (sy + r2) * w :=
              Nat.mul_le_mul_right w (by omega)
            calc ((sy + row) * w + sx) * bpp + w * bpp
                = ((sy + row) * w + sx + w) * bpp := by ring
              _ = ((sy + row + 1) * w + sx) * bpp := by rw [hinner]
              _ ≤ ((sy + r2) * w + sx) * bpp := Nat.mul_le_mul_right bpp (by omega)
          have hL : tw * bpp ≤ w * bpp := Nat.mul_le_mul_right bpp htw
          omega
        rw [hpres, hmid]
      · exact ih (row + 1) out2 res h r k (by omega) (by omega) hk

theorem grid_unique {w a b a2 b2 : Nat} (hb : b < w) (hb2 : b2 < w)
    (h : a * w + b = a2 * w + b2) : a = a2 ∧ b = b2 := by
  have hw : 0 < w := by omega
  have ha : (a * w + b) / w = a := by
    rw [Nat.mul_comm, Nat.mul_add_div hw, Nat.div_eq_of_lt hb]
    omega
  have ha2 : (a2 * w + b2) / w = a2 := by
    rw [Nat.mul_comm, Nat.mul_add_div hw, Nat.div_eq_of_lt hb2]
    omega
  have haa : a = a2 := by rw [← ha, ← ha2, h]
  subst haa
  exact ⟨rfl, by omega⟩

theorem effDim32_exact {start ts dim : Nat} (h1 : start + ts < 4294967296)
    (h2 : start ≤ dim) : effDim32 start ts dim = effDim start ts dim := by
  unfold effDim32 effDim add32 sub32
  omega

theorem blitRows_eq_exact (tile : List Nat) (w bpp sx sy tw m : Nat)
    (hEq : ∀ r, r < m →
      rowDstOff32 w bpp sx sy r = rowDstOff w bpp sx sy r ∧
      mul32 (mul32 r tw) bpp = r * tw * bpp ∧ mul32 tw bpp = tw * bpp) :
    ∀ (n row : Nat) (out : List Nat), row + n ≤ m →
      blitRows tile w bpp sx sy tw row n out =
        blitRowsE tile w bpp sx sy tw row n out := by
  intro n
  induction n with
  | zero => intro row out _; rfl
  | succ n ih =>
    intro row out hm
    obtain ⟨e1, e2, e3⟩ := hEq row (by omega)
    simp only [blitRows, blitRowsE, e1, e2, e3]
    cases copyRow out tile (rowDstOff w bpp sx sy row) (row * tw * bpp) (tw * bpp) with
    | none => rfl
    | some out2 => exact ih (row + 1) out2 (by omega)

/-- In the no-overflow regime — tile origin inside the image,
`origin + tile_size` below `2^32` on both axes, and the whole-raster byte
bound `h * w * bpp` below `2^32` — every u32 computation in `blit_tile`
equals its exact value, so the source compositor coincides with the
idealized reference loop. -/
theorem blit_tile_eq_exact (out tile : List Nat) (w h ts bpp tx ty : Nat)
    (h1 : tx * ts + ts < 4294967296) (h2 : ty * ts + ts < 4294967296)
    (h3 : tx * ts ≤ w) (h4 : ty * ts ≤ h) (h5 : h * w * bpp < 4294967296)
    (hw : 0 < w) (hh : 0 < h) (hbpp : 0 < bpp) :
    blit_tile out tile w h ts bpp tx ty =
      blitRowsE tile w bpp (tx * ts) (ty * ts) (effDim (tx * ts) ts w)
        0 (effDim (ty * ts) ts h) out := by
  have hsx : mul32 tx ts = tx * ts := Nat.mod_eq_of_lt (by omega)
  have hsy : mul32 ty ts = ty * ts := Nat.mod_eq_of_lt (by omega)
  have htwE : effDim32 (tx * ts) ts w = effDim (tx * ts) ts w := effDim32_exact h1 h3
  have hthE : effDim32 (ty * ts) ts h = effDim (ty * ts) ts h := effDim32_exact h2 h4
  have hwh : w ≤ h * w := Nat.le_mul_of_pos_left w hh
  have hhw : h ≤ h * w := Nat.le_mul_of_pos_right h hw
  have hhwb : h * w ≤ h * w * bpp := Nat.le_mul_of_pos_right (h * w) hbpp
  have htwle : effDim (tx * ts) ts w ≤ w := by
    unfold effDim
    omega
  have hEq : ∀ r, r < effDim (ty * ts) ts h →
      rowDstOff32 w bpp (tx * ts) (ty * ts) r =
        rowDstOff w bpp (tx * ts) (ty * ts) r ∧
      mul32 (mul32 r (effDim (tx * ts) ts w)) bpp =
        r * effDim (tx * ts) ts w * bpp ∧
      mul32 (effDim (tx * ts) ts w) bpp = effDim (tx * ts) ts w * bpp := by
    intro r hr
    have hsyr : ty * ts + r < h := by
      unfold effDim at hr
      omega
    have hb1 : (ty * ts + r) * w ≤ (h - 1) * w := Nat.mul_le_mul_right w (by omega)
    have hb2 : (h - 1) * w + w = h * w := by
      have hone : h - 1 + 1 = h := by omega
      calc (h - 1) * w + w = (h - 1 + 1) * w := by ring
        _ = h * w := by rw [hone]
    have hA : (ty * ts + r) * w + tx * ts ≤ h * w := by omega
    have hAb : ((ty * ts + r) * w + tx * ts) * bpp ≤ h * w * bpp :=
      Nat.mul_le_mul_right bpp hA
    have hrw : r * effDim (tx * ts) ts w ≤ (h - 1) * w :=
      Nat.mul_le_mul (by omega) htwle
    have hrwb : r * effDim (tx * ts) ts w * bpp ≤ h * w * bpp :=
      Nat.mul_le_mul_right bpp (by omega)
    have htb : effDim (tx * ts) ts w * bpp ≤ h * w * bpp :=
      Nat.mul_le_mul_right bpp (by omega)
    refine ⟨?_, ?_, ?_⟩
    · unfold rowDstOff32 rowDstOff add32 mul32
      have m1 : (ty * ts + r) % 4294967296 = ty * ts + r := Nat.mod_eq_of_lt (by omega)
      have m2 : ((ty * ts + r) * w) % 4294967296 = (ty * ts + r) * w :=
        Nat.mod_eq_of_lt (by omega)
      have m3 : ((ty * ts + r) * w + tx * ts) % 4294967296 =
          (ty * ts + r) * w + tx * ts := Nat.mod_eq_of_lt (by omega)
      rw [m1, m2, m3]
      exact Nat.mod_eq_of_lt (by omega)
    · unfold mul32
      have s1 : (r * effDim (tx * ts) ts w) % 4294967296 =
          r * effDim (tx * ts) ts w := Nat.mod_eq_of_lt (by omega)
      rw [s1]
      exact Nat.mod_eq_of_lt (by omega)
    · unfold mul32
      exact Nat.mod_eq_of_lt (by omega)
  unfold blit_tile
  rw [hsx, hsy, htwE, hthE]
  exact blitRows_eq_exact tile w bpp (tx * ts) (ty * ts) (effDim (tx * ts) ts w)
    (effDim (ty * ts) ts h) hEq (effDim (ty * ts) ts h) 0 out (by omega)

/-- C2 counterexample: the effective-width formula
`min(tile_size, width - tile_origin)` fails on the program where the u32
sum `start_x + ts` in cti.rs:235 overflows.  With tile_size = 3·2^30 and
width = 3.5·2^30, tile tx = 1 has origin `mul32 1 ts = 3·2^30 ≤ width`,
yet the wrapped sum 6·2^30 mod 2^32 = 2^31 makes the release-build program
compute tile_w = 2^31 - 3·2^30 (wrapping) = 3·2^30, not
min(3·2^30, 2^29) = 2^29 (debug builds panic on the overflowing
addition). -/
theorem cti_c2_counterexample :
    mul32 1 3221225472 = 3221225472 ∧
    (3221225472 : Nat) ≤ 3758096384 ∧
    effDim32 3221225472 3221225472 3758096384 = 3221225472 ∧
    min (3221225472 : Nat) (3758096384 - 3221225472) = 536870912 ∧
    (3221225472 : Nat) ≠ 536870912 :=
  ⟨by decide, by decide, by decide, by decide, by decide⟩

/-- C2 (amended): for every tile whose origin lies inside the image and
whose u32 origin-plus-tile-size sum does not overflow, the effective
extent computed by `blit_tile` on each axis (origin `tx * tile_size`
resp. `ty * tile_size`, extent `effDim32`) equals
`min(tile_size, image_dimension - tile_origin)`; and in the concrete
width=10, height=10, tile_size=8, 2×2-grid scenario the bottom-right tile
(tx = ty = 1) contributes exactly a 2×2 pixel sub-rectangle — only the 4
bytes at indices 88, 89, 98, 99 of the output change. -/
theorem cti_c2 :
    (∀ start ts dim : Nat, start + ts < 4294967296 → start ≤ dim →
      effDim32 start ts dim = min ts (dim - start)) ∧
    blit_tile (List.replicate 100 7) (List.range 64) 10 10 8 1 1 1 =
      some (List.replicate 88 7 ++ [0, 1] ++ List.replicate 8 7 ++ [2, 3]) := by
  constructor
  · intro start ts dim hov hsd
    unfold effDim32 add32 sub32
    omega
  · decide

theorem cti_c2_witness : effDim32 8 8 10 = min 8 (10 - 8) :=
  cti_c2.1 8 8 10 (by decide) (by decide)

/-- C3 counterexample: the claim says the source row stride of the tile
buffer is `tile_size * bpp`, so in the 10×10, tile_size=8, bpp=1 scenario
the byte blitted to destination index 98 (row 1 of the bottom-right tile)
would be tile byte `1 * 8 * 1 = 8`, of value 8 for the tile `range 64`.
The code instead copies with stride `tile_w * bpp = 2` and places tile
byte 2 there. -/
theorem cti_c3_counterexample :
    (blit_tile (List.replicate 100 100) (List.range 64) 10 10 8 1 1 1).map
        (fun res => res[98]?) = some (some 2) ∧
    (List.range 64)[1 * 8 * 1]? = some 8 ∧ (2 : Nat) ≠ 8 := by
  refine ⟨by decide, by decide, by decide⟩

/-- C3 (amended): for tiles whose origin lies inside the image and whose
compositor u32 arithmetic does not overflow (origin + tile_size below
`2^32` on both axes, whole-raster bound `h * w * bpp` below `2^32`), when
the compositor copies the clipped sub-rectangle row by row, the source row
`r` is taken from the tile buffer at byte offset
`r * effective_width * bpp` — the assumed row stride of the tile buffer is
the effective (clipped) width times bpp, not `tile_size * bpp`; the two
agree only for unclipped tiles.  (Outside that regime the u32 products in
cti.rs:242-243 wrap — `blit_wrap_stride_divergence` below exhibits a
release-build copy completing with wrapped stride 2 where the exact stride
would be 4294967298; debug builds panic instead.) -/
theorem cti_c3 (out tile : List Nat) (w h ts bpp tx ty : Nat) (res : List Nat)
    (h1 : tx * ts + ts < 4294967296) (h2 : ty * ts + ts < 4294967296)
    (h3 : tx * ts ≤ w) (h4 : ty * ts ≤ h) (h5 : h * w * bpp < 4294967296)
    (hres : blit_tile out tile w h ts bpp tx ty = some res) (r k : Nat)
    (hr : r < effDim (ty * ts) ts h) (hk : k < effDim (tx * ts) ts w * bpp) :
    res[rowDstOff w bpp (tx * ts) (ty * ts) r + k]? =
      tile[r * effDim (tx * ts) ts w * bpp + k]? := by
  have hbpp : 0 < bpp := by
    rcases Nat.eq_zero_or_pos bpp with h0 | h0
    · rw [h0, Nat.mul_zero] at hk
      omega
    · exact h0
  have heffw : 0 < effDim (tx * ts) ts w := by
    rcases Nat.eq_zero_or_pos (effDim (tx * ts) ts w) with h0 | h0
    · rw [h0, Nat.zero_mul] at hk
      omega
    · exact h0
  have hw : 0 < w := by
    unfold effDim at heffw
    omega
  have hh : 0 < h := by
    have heffh : 0 < effDim (ty * ts) ts h := by omega
    unfold effDim at heffh
    omega
  rw [blit_tile_eq_exact out tile w h ts bpp tx ty h1 h2 h3 h4 h5 hw hh hbpp] at hres
  have htw : effDim (tx * ts) ts w ≤ w := by
    unfold effDim
    omega
  exact blitRowsE_written tile w bpp (tx * ts) (ty * ts) (effDim (tx * ts) ts w) htw
    (effDim (ty * ts) ts h) 0 out res hres r k (by omega) (by omega) hk

theorem cti_c3_witness :
    (List.replicate 88 (7 : Nat) ++ [0, 1] ++ List.replicate 8 7 ++
        [2, 3])[rowDstOff 10 1 8 8 1 + 0]? =
      (List.range 64)[1 * effDim 8 8 10 * 1 + 0]? :=
  cti_c3 (List.replicate 100 7) (List.range 64) 10 10 8 1 1 1
    (List.replicate 88 7 ++ [0, 1] ++ List.replicate 8 7 ++ [2, 3])
    (by decide) (by decide) (by decide) (by decide) (by decide)
    (by decide) 1 0 (by decide) (by decide)

/-- Necessity of the no-overflow hypotheses in the amended C3: a
single-tile RGB16 blit with w = tile_size = 715827883 and h = 2 completes
in a release build with the wrapped u32 stride
`mul32 715827883 6 = 2`, taking row 1 from source offset 2, while the
exact stride formula `r * effective_width * bpp` gives 4294967298 — past
the end of any 4-byte tile buffer. -/
theorem blit_wrap_stride_divergence :
    blit_tile (List.replicate 4 9) [1, 2, 3, 4] 715827883 2 715827883 6 0 0 =
      some [1, 2, 3, 4] ∧
    mul32 (mul32 1 715827883) 6 = 2 ∧
    (1 : Nat) * effDim (0 * 715827883) 715827883 715827883 * 6 = 4294967298 ∧
    ([1, 2, 3, 4] : List Nat)[(4294967298 : Nat)]? = none :=
  ⟨by decide, by decide, by decide, by decide⟩

/-- C10 counterexample: with the wrapping u32 compositor arithmetic of
release builds the frame property fails on the program.  Take
w = 2^30 + 1, h = 1, tile_size = 2^30, bpp = 4 (RGBA8), a 4×1 tile grid
(the raster allocation `(w * h * 4) as u32` also wraps to 4 bytes).  For
tile (1, 0) the destination offset `((0 * w + 2^30) * 4) mod 2^32` wraps
to 0 and the row copy completes, changing the byte of pixel (0, 0) — a
pixel outside tile (1, 0)'s sub-rectangle, whose columns start at 2^30 —
from 9 to 1.  Tile (2, 0) completes the very same copy (its offset
2^31·4 wraps to 0 too), so two distinct tiles write output byte 0,
refuting writes-each-byte-at-most-once.  (Debug builds panic on the
overflow instead.) -/
theorem cti_c10_counterexample :
    blit_tile (List.replicate 4 9) [1, 2, 3, 4] 1073741825 1 1073741824 4 1 0 =
      some [1, 2, 3, 4] ∧
    blit_tile (List.replicate 4 9) [1, 2, 3, 4] 1073741825 1 1073741824 4 2 0 =
      some [1, 2, 3, 4] ∧
    ¬(1 * 1073741824 ≤ 0) ∧
    (List.replicate 4 (9 : Nat))[(0 * 1073741825 + 0) * 4 + 0]? = some 9 ∧
    ([1, 2, 3, 4] : List Nat)[(0 * 1073741825 + 0) * 4 + 0]? = some 1 ∧
    (9 : Nat) ≠ 1 :=
  ⟨by decide, by decide, by decide, by decide, by decide, by decide⟩

/-- C10 (amended): for every call of the compositor on a tile whose origin
lies inside the image and whose u32 arithmetic does not overflow
(origin + tile_size below `2^32` on both axes, whole-raster bound
`h * w * bpp` below `2^32`) that completes without an out-of-bounds
access: (1) every byte of a pixel `(x, y)` of the raster outside
`[tx*ts, min((tx+1)*ts, w)) × [ty*ts, min((ty+1)*ts, h))` is unchanged;
(2) a pixel inside the sub-rectangles of tiles `(tx, ty)` and `(tx2, ty2)`
forces `tx = tx2` and `ty = ty2`, so within this regime compositing tiles
in any order writes each output byte at most once. -/
theorem cti_c10 :
    (∀ (out tile res : List Nat) (w h ts bpp tx ty : Nat),
      tx * ts + ts < 4294967296 → ty * ts + ts < 4294967296 →
      tx * ts ≤ w → ty * ts ≤ h → h * w * bpp < 4294967296 →
      blit_tile out tile w h ts bpp tx ty = some res →
      ∀ x y k : Nat, x < w → y < h → k < bpp →
        ¬(tx * ts ≤ x ∧ x < min ((tx + 1) * ts) w ∧
          ty * ts ≤ y ∧ y < min ((ty + 1) * ts) h) →
        res[(y * w + x) * bpp + k]? = out[(y * w + x) * bpp + k]?) ∧
    (∀ w h ts tx ty tx2 ty2 x y : Nat,
      (tx * ts ≤ x ∧ x < min ((tx + 1) * ts) w ∧
        ty * ts ≤ y ∧ y < min ((ty + 1) * ts) h) →
      (tx2 * ts ≤ x ∧ x < min ((tx2 + 1) * ts) w ∧
        ty2 * ts ≤ y ∧ y < min ((ty2 + 1) * ts) h) →
      tx = tx2 ∧ ty = ty2) := by
  constructor
  · intro out tile res w h ts bpp tx ty hov1 hov2 hin1 hin2 hov5 hblit x y k hx hy hk hout
    have hw0 : 0 < w := by omega
    have hh0 : 0 < h := by omega
    have hbpp0 : 0 < bpp := by omega
    rw [blit_tile_eq_exact out tile w h ts bpp tx ty hov1 hov2 hin1 hin2 hov5
      hw0 hh0 hbpp0] at hblit
    refine blitRowsE_preserved tile w bpp (tx * ts) (ty * ts) (effDim (tx * ts) ts w)
      (effDim (ty * ts) ts h) 0 out res hblit ((y * w + x) * bpp + k) ?_
    intro r hr0 hrn hcon
    obtain ⟨hc1, hc2⟩ := hcon
    simp only [rowDstOff] at hc1 hc2
    have hbpp : 0 < bpp := by omega
    have htw0 : 0 < effDim (tx * ts) ts w := by
      rcases Nat.eq_zero_or_pos (effDim (tx * ts) ts w) with h0 | h0
      · rw [h0] at hc2
        omega
      · exact h0
    have hq1 : (ty * ts + r) * w + tx * ts ≤ y * w + x := by
      by_contra hcon2
      push_neg at hcon2
      have hmul : (y * w + x + 1) * bpp ≤ ((ty * ts + r) * w + tx * ts) * bpp :=
        Nat.mul_le_mul_right bpp (by omega)
      have hexp : (y * w + x + 1) * bpp = (y * w + x) * bpp + bpp := by ring
      omega
    have hq2 : y * w + x < (ty * ts + r) * w + tx * ts + effDim (tx * ts) ts w := by
      by_contra hcon2
      push_neg at hcon2
      have hmul : ((ty * ts + r) * w + tx * ts + effDim (tx * ts) ts w) * bpp ≤
          (y * w + x) * bpp := Nat.mul_le_mul_right bpp hcon2
      have hexp : ((ty * ts + r) * w + tx * ts + effDim (tx * ts) ts w) * bpp =
          ((ty * ts + r) * w + tx * ts) * bpp + effDim (tx * ts) ts w * bpp := by ring
      omega
    have hsxw : tx * ts + effDim (tx * ts) ts w ≤ w := by
      have h0 := htw0
      simp only [effDim] at h0 ⊢
      omega
    have hclt : y * w + x - ((ty * ts + r) * w + tx * ts) < effDim (tx * ts) ts w := by
      omega
    have hxw2 : tx * ts + (y * w + x - ((ty * ts + r) * w + tx * ts)) < w := by
      omega
    have hdecomp : y * w + x =
        (ty * ts + r) * w + (tx * ts + (y * w + x - ((ty * ts + r) * w + tx * ts))) := by
      omega
    obtain ⟨hy2, hx2⟩ := grid_unique hx hxw2 hdecomp
    have htsx : (tx + 1) * ts = tx * ts + ts := by ring
    have htsy : (ty + 1) * ts = ty * ts + ts := by ring
    have hg1 : tx * ts ≤ x := by omega
    have hg2 : x < min ((tx + 1) * ts) w := by
      rw [htsx]
      have hxlt : x < tx * ts + effDim (tx * ts) ts w := by omega
      simp only [effDim] at hxlt
      omega
    have hg3 : ty * ts ≤ y := by omega
    have hg4 : y < min ((ty + 1) * ts) h := by
      rw [htsy]
      have hylt : y < ty * ts + effDim (ty * ts) ts h := by omega
      simp only [effDim] at hylt
      omega
    exact hout ⟨hg1, hg2, hg3, hg4⟩
  · intro w h ts tx ty tx2 ty2 x y h1 h2
    obtain ⟨ha1, ha2, ha3, ha4⟩ := h1
    obtain ⟨hb1, hb2, hb3, hb4⟩ := h2
    have htx : x / ts = tx :=
      Nat.div_eq_of_lt_le ha1 (lt_of_lt_of_le ha2 (Nat.min_le_left _ _))
    have htx2 : x / ts = tx2 :=
      Nat.div_eq_of_lt_le hb1 (lt_of_lt_of_le hb2 (Nat.min_le_left _ _))
    have hty : y / ts = ty :=
      Nat.div_eq_of_lt_le ha3 (lt_of_lt_of_le ha4 (Nat.min_le_left _ _))
    have hty2 : y / ts = ty2 :=
      Nat.div_eq_of_lt_le hb3 (lt_of_lt_of_le hb4 (Nat.min_le_left _ _))
    exact ⟨htx.symm.trans htx2, hty.symm.trans hty2⟩

theorem cti_c10_witness :
    ([1, 2, 0, 3, 4, 0, 0, 0, 0] : List Nat)[(2 * 3 + 2) * 1 + 0]? =
      (List.replicate 9 (0 : Nat))[(2 * 3 + 2) * 1 + 0]? :=
  cti_c10.1 (List.replicate 9 0) [1, 2, 3, 4] [1, 2, 0, 3, 4, 0, 0, 0, 0] 3 3 2 1 0 0
    (by decide) (by decide) (by decide) (by decide) (by decide)
    (by decide) 2 2 0 (by decide) (by decide) (by decide) (by decide)

/-- C9: there is an input that passes the header, index, decompression and
checksum checks whose decompressed tile is shorter than the region the
compositor copies, and on it the copy goes out of bounds — nothing checks
the decompressed length against the `tile_size`/bpp geometry.  For
`c9file`: the single tile's payload is empty, its stored checksum 0 equals
the CRC-32 of the empty sequence, the compositor must copy
`effective_height * effective_width * bpp = 1` byte, and decode ends in
the out-of-bounds panic of `blit_tile` (reaching `panicOOB` means every
earlier check succeeded, and the source-slice bound `src_off + len ≤
tile.len()` is violated). -/
theorem cti_c9 :
    tileBytes noCodecs c9file 0 (parseIndex c9file 64) = .ok [] ∧
    crc32 [] = (parseIndex c9file 64).crc32 ∧
    effDim 0 1 1 * (effDim 0 1 1 * 1) = 1 ∧
    decodeFile noCodecs c9file = .error .panicOOB :=
  ⟨rfl, rfl, rfl, rfl⟩

/-! ### Colour transform -/

theorem toSigned8_eq_asI8 (b : Nat) (hb : b < 256) : toSigned 8 b = asI8 b := by
  unfold toSigned asI8
  rw [Nat.mod_eq_of_lt hb]
  norm_num

theorem toSigned16_eq_asI16 (v : Nat) (hv : v < 65536) : toSigned 16 v = asI16 v := by
  unfold toSigned asI16
  rw [Nat.mod_eq_of_lt hv]
  norm_num

theorem clampInt8_toNat (x : Int) : (clampInt 0 (2 ^ 8 - 1) x).toNat = clampToByte x := by
  unfold clampInt clampToByte
  norm_num

theorem clampInt16_toNat (x : Int) : (clampInt 0 (2 ^ 16 - 1) x).toNat = clampToWord x := by
  unfold clampInt clampToWord
  norm_num

theorem u16le_eq (b0 b1 : Nat) (h0 : b0 < 256) (h1 : b1 < 256) :
    u16le b0 b1 = b0 + 256 * b1 := by
  unfold u16le
  rw [Nat.mod_eq_of_lt h0, Nat.mod_eq_of_lt h1]

/-- C4: the inverse colour transform matches the spec formula exactly and
is applied precisely when the header requests it: (1) on RGB8 bytes each
3-byte chunk (Y, Cb, Cr) becomes the spec pixel `rctSpecPixel 8` — Cb/Cr
read as signed 8-bit, `g = Y - ((Cb + Cr) >> 2)` with arithmetic shift,
`r = Cr + g`, `b = Cb + g`, clamped into [0, 255], written in (R, G, B)
order; (2) on RGB16 bytes each 6-byte chunk of little-endian u16 channels
becomes `rctSpecPixel 16` (clamped into [0, 65535]) written back
little-endian; (3) the decode loop's transform flag `useRct` is true iff
the header's flag bit 0 is set and the colour type is RGB8 (3) or
RGB16 (5). -/
theorem cti_c4 :
    (∀ (p0 p1 p2 : Nat) (rest : List Nat), p0 < 256 → p1 < 256 → p2 < 256 →
      rct_inverse_rgb8 (p0 :: p1 :: p2 :: rest) =
        (rctSpecPixel 8 p0 p1 p2).1 :: (rctSpecPixel 8 p0 p1 p2).2.1 ::
          (rctSpecPixel 8 p0 p1 p2).2.2 :: rct_inverse_rgb8 rest) ∧
    (∀ (b0 b1 b2 b3 b4 b5 : Nat) (rest : List Nat),
      b0 < 256 → b1 < 256 → b2 < 256 → b3 < 256 → b4 < 256 → b5 < 256 →
      rct_inverse_rgb16 (b0 :: b1 :: b2 :: b3 :: b4 :: b5 :: rest) =
        (rctSpecPixel 16 (b0 + 256 * b1) (b2 + 256 * b3) (b4 + 256 * b5)).1 % 256 ::
        (rctSpecPixel 16 (b0 + 256 * b1) (b2 + 256 * b3) (b4 + 256 * b5)).1 / 256 ::
        (rctSpecPixel 16 (b0 + 256 * b1) (b2 + 256 * b3) (b4 + 256 * b5)).2.1 % 256 ::
        (rctSpecPixel 16 (b0 + 256 * b1) (b2 + 256 * b3) (b4 + 256 * b5)).2.1 / 256 ::
        (rctSpecPixel 16 (b0 + 256 * b1) (b2 + 256 * b3) (b4 + 256 * b5)).2.2 % 256 ::
        (rctSpecPixel 16 (b0 + 256 * b1) (b2 + 256 * b3) (b4 + 256 * b5)).2.2 / 256 ::
        rct_inverse_rgb16 rest) ∧
    (∀ hdr : CTIHeader, useRct hdr = true ↔
      (hdr.flags % 2 = 1 ∧ (hdr.color_type = 3 ∨ hdr.color_type = 5))) := by
  refine ⟨?_, ?_, ?_⟩
  · intro p0 p1 p2 rest h0 h1 h2
    simp only [rct_inverse_rgb8, rctSpecPixel, toSigned8_eq_asI8 p1 h1,
      toSigned8_eq_asI8 p2 h2, clampInt8_toNat, Nat.mod_eq_of_lt h0]
  · intro b0 b1 b2 b3 b4 b5 rest h0 h1 h2 h3 h4 h5
    have hy : u16le b0 b1 = b0 + 256 * b1 := u16le_eq b0 b1 h0 h1
    have hcb : u16le b2 b3 = b2 + 256 * b3 := u16le_eq b2 b3 h2 h3
    have hcr : u16le b4 b5 = b4 + 256 * b5 := u16le_eq b4 b5 h4 h5
    simp only [rct_inverse_rgb16, rctSpecPixel, hy, hcb, hcr,
      toSigned16_eq_asI16 (b2 + 256 * b3) (by omega),
      toSigned16_eq_asI16 (b4 + 256 * b5) (by omega), clampInt16_toNat]
  · intro hdr
    unfold useRct
    rw [Nat.and_one_is_mod]
    simp only [Bool.and_eq_true, bne_iff_ne, ne_eq, Bool.or_eq_true, beq_iff_eq]
    omega

theorem cti_c4_witness :
    rct_inverse_rgb8 [100, 200, 50] =
      [(rctSpecPixel 8 100 200 50).1, (rctSpecPixel 8 100 200 50).2.1,
        (rctSpecPixel 8 100 200 50).2.2] ∧
    rct_inverse_rgb16 [10, 0, 0, 255, 30, 0] =
      [(rctSpecPixel 16 (10 + 256 * 0) (0 + 256 * 255) (30 + 256 * 0)).1 % 256,
       (rctSpecPixel 16 (10 + 256 * 0) (0 + 256 * 255) (30 + 256 * 0)).1 / 256,
       (rctSpecPixel 16 (10 + 256 * 0) (0 + 256 * 255) (30 + 256 * 0)).2.1 % 256,
       (rctSpecPixel 16 (10 + 256 * 0) (0 + 256 * 255) (30 + 256 * 0)).2.1 / 256,
       (rctSpecPixel 16 (10 + 256 * 0) (0 + 256 * 255) (30 + 256 * 0)).2.2 % 256,
       (rctSpecPixel 16 (10 + 256 * 0) (0 + 256 * 255) (30 + 256 * 0)).2.2 / 256] ∧
    (useRct c1hdr = true ↔
      (c1hdr.flags % 2 = 1 ∧ (c1hdr.color_type = 3 ∨ c1hdr.color_type = 5))) :=
  ⟨(cti_c4.1 100 200 50 [] (by decide) (by decide) (by decide)).trans (by rfl),
   (cti_c4.2.1 10 0 0 255 30 0 [] (by decide) (by decide) (by decide) (by decide)
     (by decide) (by decide)).trans (by rfl),
   cti_c4.2.2 c1hdr⟩

/-! ### Unsupported compression, None passthrough, magic and probe -/

/-- C5 counterexample: decoding a tile under the unrecognized compression
id 99 fails with an UnsupportedCompression error, but its diagnostic
message is built by `as_str` and reads "Unsupported compression in
viewer: Unknown" — the text "Unknown(99)" (the `describe` rendering that
carries the raw numeric value) does not occur in it. -/
theorem cti_c5_counterexample :
    decompress_tile_with_size noCodecs 99 [1, 2] 5 =
      .error (.unsupportedCompression "Unsupported compression in viewer: Unknown") ∧
    ¬ List.IsInfix (String.toList "Unknown(99)")
        (String.toList "Unsupported compression in viewer: Unknown") := by
  exact ⟨rfl, by decide⟩

/-- C5 (amended): a header with an unrecognized compression id (outside
{0, 1, 2, 3, 4, 10, 11}) fails decode with an UnsupportedCompression
error whose message names the mode only as "Unknown", without the raw
numeric value — the value is carried in the `CompressionId.Unknown` case
and `describe` would render it as "Unknown(99)", but the decode error path
uses `as_str`; the recognized-but-unimplemented modes RLE, LZ77, Delta and
Predictive likewise fail with an UnsupportedCompression error naming the
mode. -/
theorem cti_c5 :
    (∀ (c : Codecs) (comp : List Nat) (sz v : Nat), v ∉ [0, 1, 2, 3, 4, 10, 11] →
      decompress_tile_with_size c v comp sz =
        .error (.unsupportedCompression "Unsupported compression in viewer: Unknown")) ∧
    (CompressionId.ofNat 99).describe = "Unknown(99)" ∧
    (∀ (c : Codecs) (comp : List Nat) (sz : Nat),
      decompress_tile_with_size c 1 comp sz =
        .error (.unsupportedCompression "Unsupported compression in viewer: RLE") ∧
      decompress_tile_with_size c 2 comp sz =
        .error (.unsupportedCompression "Unsupported compression in viewer: LZ77") ∧
      decompress_tile_with_size c 3 comp sz =
        .error (.unsupportedCompression "Unsupported compression in viewer: Delta") ∧
      decompress_tile_with_size c 4 comp sz =
        .error (.unsupportedCompression "Unsupported compression in viewer: Predictive")) := by
  refine ⟨?_, rfl, ?_⟩
  · intro c comp sz v hv
    simp only [List.mem_cons, List.mem_singleton] at hv
    push_neg at hv
    obtain ⟨h0, h1, h2, h3, h4, h10, h11, -⟩ := hv
    have hof : CompressionId.ofNat v = .Unknown v := by
      unfold CompressionId.ofNat
      rw [if_neg h0, if_neg h1, if_neg h2, if_neg h3, if_neg h4, if_neg h10, if_neg h11]
    unfold decompress_tile_with_size
    rw [hof]
    rfl
  · intro c comp sz
    exact ⟨rfl, rfl, rfl, rfl⟩

theorem cti_c5_witness :
    decompress_tile_with_size noCodecs 99 [] 0 =
      .error (.unsupportedCompression "Unsupported compression in viewer: Unknown") :=
  cti_c5.1 noCodecs [] 0 99 (by decide)

/-- C6: under compression id 0 (None) decompression is the identity on the
compressed bytes for every input and every declared original size — in
particular no consistency between `comp.length` and `original_size` is
checked. -/
theorem cti_c6 (c : Codecs) (comp : List Nat) (original_size : Nat) :
    decompress_tile_with_size c 0 comp original_size = .ok comp := rfl

/-- C7: any file whose parsed header carries a magic different from
"CTI1" makes full decode fail with the bad-magic FormatError, regardless
of everything after the 64-byte header — the tile index is never read and
no tile payload is processed (the suffix is universally quantified, so no
byte past the header can influence the result). -/
theorem cti_c7 (c : Codecs) (pre suffix : List Nat) (hlen : pre.length = 64)
    (hmagic : byteSlice pre 0 4 ≠ [67, 84, 73, 49]) :
    decodeFile c (pre ++ suffix) = .error .badMagic := by
  have hlen2 : 64 ≤ (pre ++ suffix).length := by
    rw [List.length_append]
    omega
  have hmagic2 : byteSlice (pre ++ suffix) 0 4 = byteSlice pre 0 4 := by
    unfold byteSlice
    rw [List.drop_zero, List.drop_zero]
    exact List.take_append_of_le_length (by omega)
  have hph : parseHeader (pre ++ suffix) = .ok (headerOf (pre ++ suffix)) := by
    unfold parseHeader
    rw [if_pos hlen2]
  have hm : (headerOf (pre ++ suffix)).magic = byteSlice pre 0 4 := hmagic2
  unfold decodeFile
  simp only [hph]
  rw [hm, if_neg hmagic]

theorem cti_c7_witness :
    decodeFile noCodecs (List.replicate 64 0 ++ [1, 2, 3]) = .error .badMagic :=
  cti_c7 noCodecs (List.replicate 64 0) [1, 2, 3] (by decide) (by decide)

theorem byteSlice_append (pre suffix : List Nat) (off n : Nat) (h : off + n ≤ pre.length) :
    byteSlice (pre ++ suffix) off n = byteSlice pre off n := by
  unfold byteSlice
  rw [List.drop_append_of_le_length (by omega)]
  exact List.take_append_of_le_length (by rw [List.length_drop]; omega)

theorem headerOf_append (pre suffix : List Nat) (h : 64 ≤ pre.length) :
    headerOf (pre ++ suffix) = headerOf pre := by
  have h1 := byteSlice_append pre suffix 0 4 (by omega)
  have h2 := byteSlice_append pre suffix 4 2 (by omega)
  have h3 := byteSlice_append pre suffix 6 2 (by omega)
  have h4 := byteSlice_append pre suffix 8 4 (by omega)
  have h5 := byteSlice_append pre suffix 12 4 (by omega)
  have h6 := byteSlice_append pre suffix 16 4 (by omega)
  have h7 := byteSlice_append pre suffix 20 4 (by omega)
  have h8 := byteSlice_append pre suffix 24 4 (by omega)
  have h9 : (pre ++ suffix).getD 28 0 = pre.getD 28 0 := by
    simp only [List.getD_eq_getElem?_getD]
    rw [List.getElem?_append_left (by omega)]
  have h10 : (pre ++ suffix).getD 29 0 = pre.getD 29 0 := by
    simp only [List.getD_eq_getElem?_getD]
    rw [List.getElem?_append_left (by omega)]
  have h11 : (pre ++ suffix).getD 30 0 = pre.getD 30 0 := by
    simp only [List.getD_eq_getElem?_getD]
    rw [List.getElem?_append_left (by omega)]
  simp only [headerOf, h1, h2, h3, h4, h5, h6, h7, h8, h9, h10, h11]

/-- C8 counterexample: `c8file` is a file containing a complete header
(all 64 header bytes, reserved padding included) and truncated immediately
after, yet full decode does not fail with an IOError — its tile grid is
0×0, so the index read is empty and decode succeeds with an empty raster.
`c8fileC` shows the same through u32 overflow: its header declares
tiles_x = tiles_y = 65536, the wrapping product at cti.rs:90 gives
65536 · 65536 mod 2^32 = 0 records, and decode likewise succeeds in a
release build (debug builds panic on the multiplication).  A bad-magic
64-byte file fails with FormatError, not IOError.  The probe part of the
claim does hold and is confirmed in `cti_c8`. -/
theorem cti_c8_counterexample :
    (c8file.length = 64 ∧ infoFile c8file = .ok (headerOf c8file) ∧
      decodeFile noCodecs c8file = .ok (headerOf c8file, [])) ∧
    (c8fileC.length = 64 ∧ (headerOf c8fileC).tiles_x = 65536 ∧
      (headerOf c8fileC).tiles_y = 65536 ∧
      mul32 (headerOf c8fileC).tiles_x (headerOf c8fileC).tiles_y = 0 ∧
      decodeFile noCodecs c8fileC = .ok (headerOf c8fileC, [])) :=
  ⟨⟨rfl, rfl, rfl⟩, ⟨rfl, rfl, rfl, rfl, rfl⟩⟩

/-- C8 (amended): the metadata probe parses only the 64-byte header and
performs no validation: it succeeds on every file with at least 64 bytes
and its result never depends on bytes past the header.  Full decode of a
file of exactly 64 bytes (a complete header, truncated immediately after)
fails with an IOError provided the magic is valid and the wrapping u32
record count `tiles_x * tiles_y mod 2^32` computed at cti.rs:90 is
nonzero; with an invalid magic it fails with FormatError instead, and
with a zero wrapped count (a 0×0 grid, or an overflowing one such as
65536×65536 in a release build) it can succeed. -/
theorem cti_c8 :
    (∀ pre suffix : List Nat, 64 ≤ pre.length →
      infoFile (pre ++ suffix) = infoFile pre) ∧
    (∀ f : List Nat, 64 ≤ f.length → infoFile f = .ok (headerOf f)) ∧
    (∀ (c : Codecs) (f : List Nat), f.length = 64 →
      (headerOf f).magic = [67, 84, 73, 49] →
      1 ≤ mul32 (headerOf f).tiles_x (headerOf f).tiles_y →
      decodeFile c f = .error .ioError) := by
  refine ⟨?_, ?_, ?_⟩
  · intro pre suffix hlen
    unfold infoFile parseHeader
    rw [if_pos (by rw [List.length_append]; omega), if_pos hlen,
      headerOf_append pre suffix hlen]
  · intro f hf
    unfold infoFile parseHeader
    rw [if_pos hf]
  · intro c f hf hmagic htiles
    have hph : parseHeader f = .ok (headerOf f) := by
      unfold parseHeader
      rw [if_pos (by omega)]
    have hpi : parseIndices f (mul32 (headerOf f).tiles_x (headerOf f).tiles_y) =
        .error .ioError := by
      unfold parseIndices
      rw [if_neg (by omega)]
    unfold decodeFile
    simp only [hph, hpi]
    rw [if_pos hmagic]

theorem cti_c8_witness :
    infoFile (c8file ++ [9]) = infoFile c8file ∧
    infoFile c8file = .ok (headerOf c8file) ∧
    decodeFile noCodecs c8fileB = .error .ioError :=
  ⟨cti_c8.1 c8file [9] (by decide), cti_c8.2.1 c8file (by decide),
   cti_c8.2.2 noCodecs c8fileB (by decide) (by decide) (by decide)⟩
